import Mathlib

/-!
Shallow embedding of the ForceDominance optimization pass of the rir compiler
(src/rir/src/compiler/opt/force_dominance.cpp): the `ForcedBy` abstract state
and its lattice operations, the transfer function of the dataflow analysis,
the classification logic of the pass driver, and the promise-inliner size
policy.  Finite maps of the C++ code (std::unordered_map, SmallSet) are
represented by association lists and lists; the ambiguous sentinel `Force`
instance is represented by a dedicated constructor compared by equality,
matching the pointer-identity comparison of the source.
-/

/-- Result type of a PIR value, as far as this analysis observes it:
only whether the value may still be a lazy (unevaluated promise) value. -/
structure PirType where
  maybeLazy : Bool
deriving DecidableEq, Repr

/-- SSA values relevant to the analysis.  `mkArg` is a MkArg instruction
(promise construction, with its promise id and eagerness), `ldArg` a
formal-parameter reference with its index and type, `forceV` a Force
instruction seen as a value, `castV` a CastType instruction, `instrV` any
other instruction with its result type, and `constV` a non-instruction
value (constant). -/
inductive Value where
  | mkArg (id : Nat) (prom : Nat) (eager : Bool)
  | ldArg (id : Nat) (ty : PirType)
  | forceV (id : Nat) (arg : Value) (ty : PirType)
  | castV (arg : Value)
  | instrV (id : Nat) (ty : PirType)
  | constV (id : Nat)
deriving DecidableEq, Repr

/-- Modelled from the spec: `Value::followCasts` of the PIR value hierarchy
(declared outside src in pir headers) resolves a value through chains of
type-cast instructions. -/
def Value.followCasts : Value → Value
  | .castV v => v.followCasts
  | v => v

/-- Modelled from the spec: `Instruction::followCastsAndForce` (declared
outside src in pir headers) resolves a value through chains of type casts
and Force instructions to the value originally being forced. -/
def Value.followCastsAndForce : Value → Value
  | .castV v => v.followCastsAndForce
  | .forceV _ v _ => v.followCastsAndForce
  | v => v

/-- A recorded forcing instruction: either a real Force instruction
identified by its id, or the process-wide ambiguous sentinel
(`ForcedBy::ambiguous()` in the source). -/
inductive ForceRef where
  | ambiguous
  | f (id : Nat)
deriving DecidableEq, Repr

/-- Association-list lookup, standing in for map lookup of the C++ code. -/
def alookup {α β : Type} [DecidableEq α] : List (α × β) → α → Option β
  | [], _ => none
  | e :: t, k => if e.1 = k then some e.2 else alookup t k

/-- Association-list key erasure (`map.erase` of the C++ code). -/
def aeraseKey {α β : Type} [DecidableEq α] (l : List (α × β)) (k : α) :
    List (α × β) :=
  l.filter fun e => decide (¬ e.1 = k)

/-- List-based set erasure (`set.erase` of the C++ code). -/
def lerase {α : Type} [DecidableEq α] (l : List α) (x : α) : List α :=
  l.filter fun y => decide (¬ y = x)

/-- Modelled from the spec: result kind reported by each abstract operation
to the generic fixed-point engine (generic_static_analysis.h, outside src):
nothing changed, the state was updated, precision was lost at a merge, or
the result was tainted by an untracked side effect. -/
inductive AbstractResult where
  | None
  | Updated
  | LostPrecision
  | Tainted
deriving DecidableEq, Repr

def AbstractResult.toNat : AbstractResult → Nat
  | .None => 0
  | .Updated => 1
  | .LostPrecision => 2
  | .Tainted => 3

/-- Modelled from the spec: `AbstractResult::max` keeps the strongest of two
reports. -/
def AbstractResult.max (a b : AbstractResult) : AbstractResult :=
  if a.toNat < b.toNat then b else a

/-- The `ForcedBy` abstract state of the analysis (struct ForcedBy of the
source): which value is forced by which Force instruction, which values are
known promise bindings in scope, which have escaped, the recorded order in
which argument promises were forced, whether that order became ambiguous,
and the per-promise cache of the deopt query. -/
structure ForcedBy where
  forcedBy : List (Value × ForceRef)
  inScope : List Value
  escaped : List Value
  argumentForceOrder : List Nat
  ambiguousForceOrder : Bool
  hasDeopt : List (Nat × Bool)
deriving DecidableEq, Repr

def ForcedBy.empty : ForcedBy := ⟨[], [], [], [], false, []⟩

/-- `ForcedBy::declare`: mark `arg` as a fresh local promise binding,
clearing prior forced-by and escaped knowledge; returns whether the state
changed. -/
def ForcedBy.declare (s : ForcedBy) (arg : Value) : ForcedBy × Bool :=
  let p1 : List Value × Bool :=
    if arg ∈ s.inScope then (s.inScope, false) else (s.inScope ++ [arg], true)
  let p2 : List (Value × ForceRef) × Bool :=
    if (alookup s.forcedBy arg).isSome then (aeraseKey s.forcedBy arg, true)
    else (s.forcedBy, false)
  let p3 : List Value × Bool :=
    if arg ∈ s.escaped then (lerase s.escaped arg, true) else (s.escaped, false)
  ({ s with inScope := p1.1, forcedBy := p2.1, escaped := p3.1 },
   p1.2 || p2.2 || p3.2)

/-- `ForcedBy::sideeffect`: every escaped value not yet known forced is
conservatively marked forced by the ambiguous sentinel. -/
def ForcedBy.sideeffect (s : ForcedBy) : ForcedBy × Bool :=
  let adds := s.escaped.filter fun e => (alookup s.forcedBy e).isNone
  ({ s with forcedBy := s.forcedBy ++ adds.map fun e => (e, ForceRef.ambiguous) },
   !adds.isEmpty)

/-- `ForcedBy::forcedAt`: record that `val` is forced by the Force
instruction `force`, only if no forcing is recorded yet. -/
def ForcedBy.forcedAt (s : ForcedBy) (val : Value) (force : Nat) :
    ForcedBy × Bool :=
  if (alookup s.forcedBy val).isNone then
    ({ s with forcedBy := s.forcedBy ++ [(val, ForceRef.f force)] }, true)
  else (s, false)

/-- `ForcedBy::escape`: mark `val` escaped unless it is already known forced
or already escaped. -/
def ForcedBy.escape (s : ForcedBy) (val : Value) : ForcedBy × Bool :=
  if (alookup s.forcedBy val).isNone ∧ val ∉ s.escaped then
    ({ s with escaped := s.escaped ++ [val] }, true)
  else (s, false)

/-- `ForcedBy::maybeForced`: scan the unambiguous argument force order for
index `i`; if absent, fall back to the ambiguous-order flag. -/
def ForcedBy.maybeForced (s : ForcedBy) (i : Nat) : Bool :=
  if i ∈ s.argumentForceOrder then true else s.ambiguousForceOrder

/-- The truncation loop at the end of `ForcedBy::mergeExit` (lines 168-175
of the source): find the first index below `common` where the two recorded
orders disagree and truncate the current order there, setting the ambiguous
flag and reporting an update.  Since `common` never exceeds the length of
either list, comparing the original `ord` at indices below `common` agrees
with comparing its resized version, as the source does. -/
def mergeOrderScan (ord other cur : List Nat) (amb upd : Bool) (common : Nat) :
    List Nat × Bool × Bool :=
  match (List.range common).find? (fun i => ord.getD i 0 != other.getD i 0) with
  | some i => (cur.take i, true, true)
  | none => (cur, amb, upd)

/-- The argument-force-order part of `ForcedBy::mergeExit` (lines 153-176 of
the source): if the two sequences differ, resize to the shorter one, then
truncate at the first disagreeing index; each truncation sets the
ambiguous-order flag and reports an update.  Returns the new order, the new
ambiguous flag, and whether an update was reported. -/
def mergeOrder (ord other : List Nat) (amb : Bool) : List Nat × Bool × Bool :=
  if ord = other then (ord, amb, false)
  else if other.length < ord.length then
    mergeOrderScan ord other (ord.take other.length) true true other.length
  else if !amb && decide (ord.length < other.length) then
    mergeOrderScan ord other ord true true ord.length
  else
    mergeOrderScan ord other ord amb false ord.length

/-- The first loop of `ForcedBy::mergeExit` (lines 117-128 of the source):
an entry whose value both states force is degraded to the ambiguous
sentinel when the two recorded forcing instructions differ. -/
def mergeExitFB1 (afb bfb : List (Value × ForceRef)) : List (Value × ForceRef) :=
  afb.map fun e =>
    (e.1,
     match alookup bfb e.1 with
     | some g => if g = e.2 then e.2 else ForceRef.ambiguous
     | none => e.2)

/-- The entries adopted by the second loop of `ForcedBy::mergeExit` (lines
129-140 of the source): entries of the other state absent from this one. -/
def mergeExitAdds (afb bfb : List (Value × ForceRef)) :
    List (Value × ForceRef) :=
  bfb.filter fun e => (alookup (mergeExitFB1 afb bfb) e.1).isNone

/-- `ForcedBy::mergeExit`: merge used at exits.  A forced-by entry is
degraded to ambiguous only when both states record a forcing and the
recorded forcing instructions differ; entries absent on one side are
adopted from the other (inserting the value into scope if needed); escaped
sets union; the ambiguous-order flag is sticky; the force order merges by
common-prefix truncation. -/
def ForcedBy.mergeExit (a b : ForcedBy) : ForcedBy × AbstractResult :=
  let lost1 := a.forcedBy.any fun e =>
    match alookup b.forcedBy e.1 with
    | some g => !(g == e.2) && !(e.2 == ForceRef.ambiguous)
    | none => false
  let adds := mergeExitAdds a.forcedBy b.forcedBy
  let fb2 := mergeExitFB1 a.forcedBy b.forcedBy ++ adds
  let inS2 := a.inScope ++ (adds.map Prod.fst).filter fun v => decide (v ∉ a.inScope)
  let upd2 := !adds.isEmpty
  let eAdds := b.escaped.filter fun v => decide (v ∉ a.escaped)
  let esc2 := a.escaped ++ eAdds
  let upd3 := !eAdds.isEmpty
  let p4 : Bool × Bool :=
    if !a.ambiguousForceOrder && b.ambiguousForceOrder then (true, true)
    else (a.ambiguousForceOrder, false)
  let p5 := mergeOrder a.argumentForceOrder b.argumentForceOrder p4.1
  let res :=
    ((if lost1 then AbstractResult.LostPrecision else .None).max
      (if upd2 || upd3 || p4.2 || p5.2.2 then AbstractResult.Updated else .None))
  ({ forcedBy := fb2, inScope := inS2, escaped := esc2,
     argumentForceOrder := p5.1, ambiguousForceOrder := p5.2.1,
     hasDeopt := a.hasDeopt }, res)

/-- The first loop of `ForcedBy::merge` (lines 187-197 of the source): an
entry is degraded to ambiguous when the other state does not force the
value but has it in scope. -/
def mergeFB1 (a b : ForcedBy) : List (Value × ForceRef) :=
  a.forcedBy.map fun e =>
    (e.1,
     if (alookup b.forcedBy e.1).isNone ∧ e.1 ∈ b.inScope then
       ForceRef.ambiguous
     else e.2)

/-- The entries inserted by the second loop of `ForcedBy::merge` (lines
198-205 of the source): values the other state forces that this state only
has in scope become ambiguous entries. -/
def mergeAdds (a b : ForcedBy) : List (Value × ForceRef) :=
  b.forcedBy.filter fun e =>
    (alookup (mergeFB1 a b) e.1).isNone && decide (e.1 ∈ a.inScope)

/-- `ForcedBy::merge`: merge used at ordinary control-flow joins.  On top of
`mergeExit`, force knowledge is degraded to ambiguous when one incoming
state has a value forced and the other has it merely in scope but not
forced. -/
def ForcedBy.merge (a b : ForcedBy) : ForcedBy × AbstractResult :=
  let lostA := a.forcedBy.any fun e =>
    (alookup b.forcedBy e.1).isNone && decide (e.1 ∈ b.inScope) &&
      !(e.2 == ForceRef.ambiguous)
  let adds1 := mergeAdds a b
  let fb2 := mergeFB1 a b ++ adds1.map fun e => (e.1, ForceRef.ambiguous)
  let lostB := !adds1.isEmpty
  let r := ForcedBy.mergeExit { a with forcedBy := fb2 } b
  (r.1, ((if lostA || lostB then AbstractResult.LostPrecision else .None).max r.2))

/-- `ForcedBy::eagerLikeFunction`: the closure behaves eagerly when the
force order is unambiguous, covers at least all `nargs` effective
parameters, and its first `nargs` recorded indices are exactly
0, 1, ..., nargs-1. -/
def ForcedBy.eagerLikeFunction (s : ForcedBy) (nargs : Nat) : Bool :=
  if s.ambiguousForceOrder || decide (s.argumentForceOrder.length < nargs) then
    false
  else (List.range nargs).all fun i => s.argumentForceOrder.getD i 0 == i

/-- `ForcedBy::getDominatingForce`: resolve the operand of a Force through
casts and return the recorded forcing instruction, or nothing when unknown
or ambiguous. -/
def ForcedBy.getDominatingForce (s : ForcedBy) (farg : Value) : Option Nat :=
  match alookup s.forcedBy farg.followCasts with
  | none => none
  | some .ambiguous => none
  | some (.f i) => some i

/-- `ForcedBy::isDominatingForce`: a Force (with id `fid` and operand
`farg`) is dominating iff it is exactly its own recorded dominating
force. -/
def ForcedBy.isDominatingForce (s : ForcedBy) (fid : Nat) (farg : Value) : Bool :=
  s.getDominatingForce farg == some fid

inductive PromiseInlineable where
  | SafeToInline
  | SafeToInlineWithUpdate
  | NotSafeToInline
deriving DecidableEq, Repr

/-- `ForcedBy::isSafeToInline`: a MkArg (id `mkid`, promise `prom`,
eagerness `eager`) is never safe to inline when its promise body may
trigger a non-local exit (queried once from the `noDeoptQ` oracle and
cached in `hasDeopt`); otherwise inlining needs an UpdatePromise companion
exactly when the MkArg escaped.  Returns the verdict and the state with the
updated cache. -/
def ForcedBy.isSafeToInline (s : ForcedBy) (noDeoptQ : Nat → Bool)
    (mkid prom : Nat) (eager : Bool) : PromiseInlineable × ForcedBy :=
  match alookup s.hasDeopt prom with
  | some d =>
    if d then (.NotSafeToInline, s)
    else
      (if Value.mkArg mkid prom eager ∈ s.escaped then .SafeToInlineWithUpdate
       else .SafeToInline, s)
  | none =>
    let d := !noDeoptQ prom
    let s2 := { s with hasDeopt := s.hasDeopt ++ [(prom, d)] }
    if d then (.NotSafeToInline, s2)
    else
      (if Value.mkArg mkid prom eager ∈ s2.escaped then .SafeToInlineWithUpdate
       else .SafeToInline, s2)

/-- Instructions as consumed by the transfer function
`ForceDominanceAnalysis::apply`: Force (with its id and operand), MkArg,
MkEnv (with its stub flag and operands), CastType, Deopt, and any other
instruction with its result type, its effect-set facts about forcing
(`effects.contains(Effect::Force)` and `effects.includes(Effect::Force)`)
and its operands. -/
inductive Instr where
  | force (fid : Nat) (arg : Value)
  | mkArgI (id : Nat) (prom : Nat) (eager : Bool)
  | mkEnv (stub : Bool) (args : List Value)
  | castTypeI (cid : Nat) (arg : Value)
  | deopt
  | other (oid : Nat) (ty : PirType) (containsForce includesForce : Bool)
      (args : List Value)
deriving DecidableEq, Repr

/-- The operand filter of the `apply` lambda in
`ForceDominanceAnalysis::apply`: a cast-stripped operand escapes when it is
a MkArg, an LdArg, or an instruction whose type may be lazy. -/
def escapeCond : Value → Bool
  | .mkArg _ _ _ => true
  | .ldArg _ _ => true
  | .forceV _ _ ty => ty.maybeLazy
  | .instrV _ ty => ty.maybeLazy
  | .castV _ => false
  | .constV _ => false

/-- The operand condition of the non-LdArg Force branch of the transfer
function: the cast-stripped operand is recorded as forced when it is a
MkArg or an instruction whose type may be lazy. -/
def forceKeyCond : Value → Bool
  | .mkArg _ _ _ => true
  | .ldArg _ ty => ty.maybeLazy
  | .forceV _ _ ty => ty.maybeLazy
  | .instrV _ ty => ty.maybeLazy
  | .castV _ => false
  | .constV _ => false

/-- The escaping loop of the `apply` lambda: strip casts from each operand
and escape the qualifying ones, reporting whether any state change
happened. -/
def escapeArgs (s : ForcedBy) : List Value → ForcedBy × Bool
  | [] => (s, false)
  | v :: rest =>
    let v2 := v.followCasts
    let r1 : ForcedBy × Bool := if escapeCond v2 then s.escape v2 else (s, false)
    let r2 := escapeArgs r1.1 rest
    (r2.1, r1.2 || r2.2)

/-- The transfer function `ForceDominanceAnalysis::apply`, for a closure
version with `nargs` effective parameters. -/
def applyInstr (nargs : Nat) (s : ForcedBy) (i : Instr) :
    ForcedBy × AbstractResult :=
  match i with
  | .force fid arg =>
    match arg.followCasts with
    | .ldArg id ty =>
      if ty.maybeLazy then
        let r1 := s.forcedAt (Value.ldArg id ty) fid
        let res1 : AbstractResult := if r1.2 then .Updated else .None
        if !r1.1.ambiguousForceOrder && !r1.1.maybeForced id then
          ({ r1.1 with argumentForceOrder := r1.1.argumentForceOrder ++ [id] },
           .Updated)
        else (r1.1, res1)
      else (s, .None)
    | v2 =>
      if forceKeyCond v2 then
        let r1 := s.forcedAt v2 fid
        (r1.1, if r1.2 then .Updated else .None)
      else (s, .None)
  | .mkArgI id prom eager =>
    let r := s.declare (Value.mkArg id prom eager)
    (r.1, if r.2 then .Updated else .None)
  | .mkEnv stub args =>
    if !stub then
      let r := escapeArgs s args
      (r.1, if r.2 then .Updated else .None)
    else (s, .None)
  | .castTypeI _ _ => (s, .None)
  | .deopt => (s, .None)
  | .other oid ty containsForce includesForce args =>
    let r1 : ForcedBy × Bool :=
      if ty.maybeLazy then s.declare (Value.instrV oid ty) else (s, false)
    let r2 := escapeArgs r1.1 args
    let r3 : ForcedBy × Bool :=
      if containsForce then r2.1.sideeffect else (r2.1, false)
    let r4 : ForcedBy × Bool :=
      if includesForce && !r3.1.ambiguousForceOrder &&
          decide (r3.1.argumentForceOrder.length < nargs) then
        ({ r3.1 with ambiguousForceOrder := true }, true)
      else (r3.1, false)
    (r4.1,
     ((if r1.2 || r2.2 then AbstractResult.Updated else .None).max
       (if r3.2 || r4.2 then AbstractResult.Tainted else .None)))

/-- One step of the fixed-point iteration: the state part of the transfer
function. -/
def stepF (nargs : Nat) (s : ForcedBy) (i : Instr) : ForcedBy :=
  (applyInstr nargs s i).1

/-- The abstract state obtained by running the transfer function along one
execution path, starting from the empty state seeded at the entry block. -/
def runPath (nargs : Nat) (p : List Instr) : ForcedBy :=
  p.foldl (stepF nargs) ForcedBy.empty

/-- State part of `ForcedBy::merge`. -/
def mergeState (a b : ForcedBy) : ForcedBy := (a.merge b).1

/-- Modelled from the spec: the converged analysis result at a program
point (generic_static_analysis.h, outside src) is the abstract state
threaded by copy along each path reaching the point and combined by
`ForcedBy::merge` at joins; over a list of entry-to-point paths it is the
merge of the per-path states, or nothing when no path reaches the
point. -/
def mergedStates (nargs : Nat) (paths : List (List Instr)) : Option ForcedBy :=
  match paths.map (runPath nargs) with
  | [] => none
  | s :: ss => some (ss.foldl mergeState s)

/-- The prefix of a path up to and including the first occurrence of the
Force instruction with id `fid` and operand `a0`, or nothing if the path
does not execute that Force. -/
def prefixThrough (fid : Nat) (a0 : Value) : List Instr → Option (List Instr)
  | [] => none
  | j :: t =>
    if j = Instr.force fid a0 then some [j]
    else (prefixThrough fid a0 t).map (j :: ·)

/-- `Parameter::PROMISE_INLINER_MAX_SIZE`: read from the environment
setting `PIR_PROMISE_INLINER_MAX_SIZE` when present, defaulting to 3000. -/
def PROMISE_INLINER_MAX_SIZE (envSetting : Option Nat) : Nat :=
  match envSetting with
  | some v => v
  | none => 3000

/-- The `isHuge` flag computed once at the start of `ForceDominance::apply`:
the closure version size exceeds the promise-inliner maximum size. -/
def isHugeF (envSetting : Option Nat) (codeSize : Nat) : Bool :=
  decide (codeSize > PROMISE_INLINER_MAX_SIZE envSetting)

/-- The size gate of Phase A (line 405 of the source): a promise body is
eligible when the closure is not huge, or its size is below the constant
10. -/
def promSizeEligible (isHuge : Bool) (promSize : Nat) : Bool :=
  !isHuge || decide (promSize < 10)

/-- Decisions Phase A records for one Force instruction. -/
structure ForceDecision where
  strict : Bool
  queueInline : Bool
  needsUpdate : Bool
  dominatedBy : Option Nat
deriving DecidableEq, Repr

/-- The Phase A classification of one Force instruction (lines 398-420 of
`ForceDominance::apply`): `a` is the analysis result at the instruction
ignoring unreachable exits, `query` the state after it; a dominating Force
is marked strict and, when its operand resolves to a non-eager MkArg small
enough and safe to inline, queued for inlining (remembering whether an
update companion is needed); a dominated Force records its dominator. -/
def classifyForce (a query : ForcedBy) (noDeoptQ : Nat → Bool) (isHuge : Bool)
    (promSize : Nat → Nat) (fid : Nat) (farg : Value) (fty : PirType) :
    ForceDecision :=
  if a.isDominatingForce fid farg then
    match (Value.forceV fid farg fty).followCastsAndForce with
    | .mkArg mkid prom eager =>
      if !eager then
        if promSizeEligible isHuge (promSize prom) then
          let inl := (query.isSafeToInline noDeoptQ mkid prom eager).1
          if inl ≠ PromiseInlineable.NotSafeToInline then
            { strict := true, queueInline := true,
              needsUpdate := inl = PromiseInlineable.SafeToInlineWithUpdate,
              dominatedBy := none }
          else ⟨true, false, false, none⟩
        else ⟨true, false, false, none⟩
      else ⟨true, false, false, none⟩
    | _ => ⟨true, false, false, none⟩
  else
    match a.getDominatingForce farg with
    | some dom =>
      ⟨false, false, false, if fid ≠ dom then some dom else none⟩
    | none => ⟨false, false, false, none⟩

/-- The Phase A dead-update classification (lines 421-426 of
`ForceDominance::apply`): an UpdatePromise whose first operand is directly
a MkArg is removed exactly when that MkArg is not in the escaped set of the
analysis state before the instruction; any other operand shape leaves the
instruction in place.  Returns true when the instruction is removed. -/
def updatePromiseStep (before : ForcedBy) (target : Value) : Bool :=
  match target with
  | .mkArg id prom eager =>
    if Value.mkArg id prom eager ∈ before.escaped then false else true
  | _ => false

/-- Well-formedness of a forced-by map: every entry is what its key looks up
to.  This holds for every map built by the analysis, whose keys are
unique. -/
def WFfb (l : List (Value × ForceRef)) : Prop :=
  ∀ e ∈ l, alookup l e.1 = some e.2

/-- The value an instruction `declare`s in the transfer function, if any:
a MkArg declares its own value; a generic instruction with a possibly lazy
result type declares itself. -/
def declaresOf : Instr → Option Value
  | .mkArgI id prom eager => some (.mkArg id prom eager)
  | .other oid ty _ _ _ => if ty.maybeLazy then some (.instrV oid ty) else none
  | _ => none

/-- No instruction in the list declares `v`. -/
def NoDeclare (v : Value) (l : List Instr) : Prop :=
  ∀ j ∈ l, declaresOf j ≠ some v

/-- The instruction is a Force whose cast-stripped operand is `v`. -/
def ForcesV (v : Value) (j : Instr) : Prop :=
  ∃ g b, j = Instr.force g b ∧ b.followCasts = v

/-- The Force with id `fid` is the first force of `v` since the most recent
declaration of `v` on the path `p`: an occurrence of a Force with id `fid`
and operand resolving to `v` splits `p` so that no later instruction
redeclares `v`, and every earlier force of `v` in the path is followed by a
redeclaration of `v` before that occurrence. -/
def FirstForceOk (v : Value) (fid : Nat) (p : List Instr) : Prop :=
  ∃ q1 b q2, p = q1 ++ Instr.force fid b :: q2 ∧ b.followCasts = v ∧
    forceKeyCond v = true ∧ NoDeclare v q2 ∧
    ∀ t1 j t2, q1 = t1 ++ j :: t2 → ForcesV v j → ¬ NoDeclare v t2

/-- Statement form of the spec claim on soundness of force dominance, for a
program given by its complete execution paths: if the converged analysis
state at Force `fid` (the merge, per the analysis driver, of the per-path
states over the prefixes of the paths that reach the force) reports
`isDominatingForce`, then every other Force of the same cast-stripped
operand anywhere in the program executes only after an occurrence of Force
`fid` on its own path. -/
def dominanceClaim (nargs fid : Nat) (a0 : Value)
    (paths : List (List Instr)) : Prop :=
  ∀ S, mergedStates nargs (paths.filterMap (prefixThrough fid a0)) = some S →
    S.isDominatingForce fid a0 = true →
    ∀ p ∈ paths, ∀ t1 j t2, p = t1 ++ j :: t2 →
      ForcesV a0.followCasts j → j ≠ Instr.force fid a0 →
      ∃ u1 u2, t1 = u1 ++ Instr.force fid a0 :: u2

/-- Statement form of the across-all-operations monotonicity claim,
instantiated at the `declare` operation: the escaped set never shrinks and
a recorded forced-state never disappears. -/
def declareMonotoneClaim : Prop :=
  ∀ (s : ForcedBy) (v : Value),
    (∀ x ∈ s.escaped, x ∈ (s.declare v).1.escaped) ∧
    (∀ w r, alookup s.forcedBy w = some r →
      (alookup (s.declare v).1.forcedBy w).isSome)

/-- A sample abstract state used to instantiate universally quantified
results on concrete inputs. -/
def sampleA : ForcedBy :=
  ⟨[(Value.constV 0, ForceRef.f 3)], [Value.constV 0], [Value.constV 0],
   [0], true, []⟩

/-! Lookup lemmas for the association-list representation. -/

theorem alookup_append {α β : Type} [DecidableEq α] (l1 l2 : List (α × β))
    (k : α) :
    alookup (l1 ++ l2) k =
      match alookup l1 k with
      | some v => some v
      | none => alookup l2 k := by
  induction l1 with
  | nil => simp [alookup]
  | cons e t ih => by_cases h : e.1 = k <;> simp [alookup, h, ih]

theorem alookup_map_entry {α β γ : Type} [DecidableEq α]
    (l : List (α × β)) (F : α → β → γ) (k : α) :
    alookup (l.map fun e => (e.1, F e.1 e.2)) k = (alookup l k).map (F k) := by
  induction l with
  | nil => simp [alookup]
  | cons e t ih =>
    by_cases h : e.1 = k
    · subst h; simp [alookup]
    · simp [alookup, h, ih]

theorem alookup_filter_key {α β : Type} [DecidableEq α]
    (l : List (α × β)) (q : α → Bool) (k : α) :
    alookup (l.filter fun e => q e.1) k =
      if q k then alookup l k else none := by
  induction l with
  | nil => simp [alookup]
  | cons e t ih =>
    by_cases hq : q e.1 = true
    · by_cases h : e.1 = k
      · subst h; simp [alookup, hq]
      · simp [alookup, h, hq, ih]
    · by_cases h : e.1 = k
      · subst h
        simp [alookup, hq, ih, List.filter_cons,
          Bool.not_eq_true _ ▸ hq]
      · simp [alookup, h, hq, ih, List.filter_cons]

theorem alookup_map_pair {α β : Type} [DecidableEq α]
    (xs : List α) (c : β) (k : α) :
    alookup (xs.map fun x => (x, c)) k = if k ∈ xs then some c else none := by
  induction xs with
  | nil => simp [alookup]
  | cons x t ih =>
    by_cases h : x = k
    · subst h; simp [alookup]
    · simp [alookup, h, ih, Ne.symm h]

theorem alookup_aerase {α β : Type} [DecidableEq α]
    (l : List (α × β)) (k k2 : α) :
    alookup (aeraseKey l k) k2 = if k2 = k then none else alookup l k2 := by
  unfold aeraseKey
  rw [alookup_filter_key l (fun a => decide (¬ a = k)) k2]
  by_cases h : k2 = k <;> simp [h]

/-! Lookup characterizations of the two merges. -/

theorem alookup_mergeExitFB1 (afb bfb : List (Value × ForceRef)) (k : Value) :
    alookup (mergeExitFB1 afb bfb) k =
      (alookup afb k).map fun f =>
        match alookup bfb k with
        | some g => if g = f then f else ForceRef.ambiguous
        | none => f := by
  unfold mergeExitFB1
  exact alookup_map_entry afb
    (fun a f =>
      match alookup bfb a with
      | some g => if g = f then f else ForceRef.ambiguous
      | none => f) k

theorem alookup_mergeExitAdds (afb bfb : List (Value × ForceRef)) (k : Value) :
    alookup (mergeExitAdds afb bfb) k =
      if (alookup afb k).isNone then alookup bfb k else none := by
  unfold mergeExitAdds
  rw [alookup_filter_key bfb
    (fun a => (alookup (mergeExitFB1 afb bfb) a).isNone) k]
  rw [alookup_mergeExitFB1]
  cases alookup afb k <;> simp

theorem ForcedBy.lookup_mergeExit (a b : ForcedBy) (v : Value) :
    alookup (a.mergeExit b).1.forcedBy v =
      match alookup a.forcedBy v, alookup b.forcedBy v with
      | some f, some g => some (if g = f then f else ForceRef.ambiguous)
      | some f, none => some f
      | none, some g => some g
      | none, none => none := by
  have hfb : (a.mergeExit b).1.forcedBy =
      mergeExitFB1 a.forcedBy b.forcedBy ++
        mergeExitAdds a.forcedBy b.forcedBy := rfl
  rw [hfb, alookup_append, alookup_mergeExitFB1, alookup_mergeExitAdds]
  cases hA : alookup a.forcedBy v <;> cases hB : alookup b.forcedBy v <;> simp

theorem alookup_mergeFB1 (a b : ForcedBy) (k : Value) :
    alookup (mergeFB1 a b) k =
      (alookup a.forcedBy k).map fun f =>
        if (alookup b.forcedBy k).isNone ∧ k ∈ b.inScope then
          ForceRef.ambiguous
        else f := by
  unfold mergeFB1
  exact alookup_map_entry a.forcedBy
    (fun a2 f =>
      if (alookup b.forcedBy a2).isNone ∧ a2 ∈ b.inScope then
        ForceRef.ambiguous
      else f) k

theorem alookup_mergeAdds (a b : ForcedBy) (k : Value) :
    alookup (mergeAdds a b) k =
      if (alookup a.forcedBy k).isNone ∧ k ∈ a.inScope then
        alookup b.forcedBy k
      else none := by
  unfold mergeAdds
  rw [alookup_filter_key b.forcedBy
    (fun a2 => (alookup (mergeFB1 a b) a2).isNone && decide (a2 ∈ a.inScope)) k]
  rw [alookup_mergeFB1]
  cases alookup a.forcedBy k <;> by_cases h : k ∈ a.inScope <;> simp [h]

theorem ForcedBy.lookup_merge (a b : ForcedBy) (v : Value) :
    alookup (a.merge b).1.forcedBy v =
      match alookup a.forcedBy v, alookup b.forcedBy v with
      | some f, some g => some (if g = f then f else ForceRef.ambiguous)
      | some f, none => some (if v ∈ b.inScope then ForceRef.ambiguous else f)
      | none, some g => some (if v ∈ a.inScope then ForceRef.ambiguous else g)
      | none, none => none := by
  have h1 : (a.merge b).1 =
      (ForcedBy.mergeExit
        { a with forcedBy :=
            mergeFB1 a b ++ (mergeAdds a b).map fun e => (e.1, ForceRef.ambiguous) }
        b).1 := rfl
  rw [h1, ForcedBy.lookup_mergeExit]
  have hA2 : alookup
      ({ a with forcedBy :=
          mergeFB1 a b ++ (mergeAdds a b).map fun e => (e.1, ForceRef.ambiguous) } :
        ForcedBy).forcedBy v =
      alookup (mergeFB1 a b ++
        (mergeAdds a b).map fun e => (e.1, ForceRef.ambiguous)) v := rfl
  rw [hA2, alookup_append,
    alookup_map_entry (mergeAdds a b) (fun _ _ => ForceRef.ambiguous) v,
    alookup_mergeFB1, alookup_mergeAdds]
  cases hA : alookup a.forcedBy v <;> cases hB : alookup b.forcedBy v <;>
    by_cases has : v ∈ a.inScope <;> by_cases hbs : v ∈ b.inScope <;>
      simp [has, hbs]

/-! Generic list facts used below. -/

theorem map_eq_self_of {α : Type} (l : List α) (f : α → α)
    (h : ∀ a ∈ l, f a = a) : l.map f = l := by
  induction l with
  | nil => rfl
  | cons x t ih =>
    simp only [List.map_cons, h x (List.mem_cons_self x t)]
    rw [ih fun a ha => h a (List.mem_cons_of_mem x ha)]

theorem alookup_isSome_of_mem {α β : Type} [DecidableEq α]
    (l : List (α × β)) (e : α × β) (h : e ∈ l) : (alookup l e.1).isSome := by
  induction l with
  | nil => simp at h
  | cons x t ih =>
    rcases List.mem_cons.1 h with h1 | h1
    · subst h1; simp [alookup]
    · by_cases hx : x.1 = e.1 <;> simp [alookup, hx, ih h1]

/-! Facts about the order merge. -/

theorem mergeOrderScan_take (ord other cur : List Nat) (amb upd : Bool)
    (common : Nat) :
    ∃ k, (mergeOrderScan ord other cur amb upd common).1 = cur.take k := by
  unfold mergeOrderScan
  cases hf : (List.range common).find? (fun i => ord.getD i 0 != other.getD i 0) with
  | none => exact ⟨cur.length, (List.take_length cur).symm⟩
  | some i => exact ⟨i, rfl⟩

theorem mergeOrderScan_amb (ord other cur : List Nat) (upd : Bool)
    (common : Nat) :
    (mergeOrderScan ord other cur true upd common).2.1 = true := by
  unfold mergeOrderScan
  cases hf : (List.range common).find? (fun i => ord.getD i 0 != other.getD i 0) <;>
    simp

theorem mergeOrder_take (ord other : List Nat) (amb : Bool) :
    ∃ k, (mergeOrder ord other amb).1 = ord.take k := by
  unfold mergeOrder
  by_cases h1 : ord = other
  · exact ⟨ord.length, by simp [h1, (List.take_length ord).symm]⟩
  · simp only [h1, if_false]
    by_cases h2 : other.length < ord.length
    · simp only [h2, if_true]
      rcases mergeOrderScan_take ord other (ord.take other.length) true true
        other.length with ⟨k, hk⟩
      exact ⟨min k other.length, by rw [hk, List.take_take]⟩
    · simp only [h2, if_false]
      by_cases h3 : !amb && decide (ord.length < other.length) <;>
        simp only [h3, if_true, if_false, Bool.false_eq_true] <;>
        [exact mergeOrderScan_take ord other ord true true ord.length;
         exact mergeOrderScan_take ord other ord amb false ord.length]

theorem mergeOrder_amb (ord other : List Nat) :
    (mergeOrder ord other true).2.1 = true := by
  unfold mergeOrder
  by_cases h1 : ord = other
  · simp [h1]
  · simp only [h1, if_false, Bool.not_true, Bool.false_and, if_false]
    by_cases h2 : other.length < ord.length
    · simp only [h2, if_true]
      exact mergeOrderScan_amb ord other (ord.take other.length) true other.length
    · simp only [h2, if_false]
      exact mergeOrderScan_amb ord other ord false ord.length

theorem mergeOrder_self (ord : List Nat) (amb : Bool) :
    mergeOrder ord ord amb = (ord, amb, false) := by
  unfold mergeOrder
  simp

/-! Self-merge and monotonicity of the merges. -/

theorem mergeExitFB1_self (l : List (Value × ForceRef)) (h : WFfb l) :
    mergeExitFB1 l l = l := by
  unfold mergeExitFB1
  apply map_eq_self_of
  intro e he
  rw [h e he]
  simp

theorem mergeExitAdds_self (l : List (Value × ForceRef)) (h : WFfb l) :
    mergeExitAdds l l = [] := by
  unfold mergeExitAdds
  rw [mergeExitFB1_self l h]
  apply List.filter_eq_nil_iff.2
  intro e he
  have hs := alookup_isSome_of_mem l e he
  cases hx : alookup l e.1 with
  | none => rw [hx] at hs; simp at hs
  | some g => simp [hx]

theorem mergeFB1_self (a : ForcedBy) : mergeFB1 a a = a.forcedBy := by
  unfold mergeFB1
  apply map_eq_self_of
  intro e he
  have hs := alookup_isSome_of_mem a.forcedBy e he
  cases hx : alookup a.forcedBy e.1 with
  | none => rw [hx] at hs; simp at hs
  | some g => simp [hx]

theorem mergeAdds_self (a : ForcedBy) : mergeAdds a a = [] := by
  unfold mergeAdds
  rw [mergeFB1_self]
  apply List.filter_eq_nil_iff.2
  intro e he
  have hs := alookup_isSome_of_mem a.forcedBy e he
  cases hx : alookup a.forcedBy e.1 with
  | none => rw [hx] at hs; simp at hs
  | some g => simp [hx]

theorem ForcedBy.mergeExit_self (a : ForcedBy) (h : WFfb a.forcedBy) :
    a.mergeExit a = (a, AbstractResult.None) := by
  have hlost : (a.forcedBy.any fun e =>
      match alookup a.forcedBy e.1 with
      | some g => !(g == e.2) && !(e.2 == ForceRef.ambiguous)
      | none => false) = false := by
    rw [List.any_eq_false]
    intro e he
    rw [h e he]
    simp
  have hesc : (a.escaped.filter fun v => decide (v ∉ a.escaped)) = [] := by
    apply List.filter_eq_nil_iff.2
    intro v hv
    simp [hv]
  unfold ForcedBy.mergeExit
  rw [mergeExitAdds_self _ h, mergeExitFB1_self _ h, hlost, hesc]
  simp [mergeOrder_self, AbstractResult.max, AbstractResult.toNat]

theorem ForcedBy.merge_self (a : ForcedBy) (h : WFfb a.forcedBy) :
    a.merge a = (a, AbstractResult.None) := by
  have hlostA : (a.forcedBy.any fun e =>
      (alookup a.forcedBy e.1).isNone && decide (e.1 ∈ a.inScope) &&
        !(e.2 == ForceRef.ambiguous)) = false := by
    rw [List.any_eq_false]
    intro e he
    have hs := alookup_isSome_of_mem a.forcedBy e he
    cases hx : alookup a.forcedBy e.1 with
    | none => rw [hx] at hs; simp at hs
    | some g => simp [hx]
  unfold ForcedBy.merge
  rw [mergeAdds_self, mergeFB1_self, hlostA]
  simp only [List.map_nil, List.append_nil, List.isEmpty_nil, Bool.not_true,
    Bool.or_false, Bool.false_eq_true, if_false]
  have hrec : ({ a with forcedBy := a.forcedBy } : ForcedBy) = a := rfl
  rw [hrec, ForcedBy.mergeExit_self a h]
  simp [AbstractResult.max, AbstractResult.toNat]

theorem ForcedBy.mergeExit_forced_mono (a b : ForcedBy) (v : Value)
    (r : ForceRef) (h : alookup a.forcedBy v = some r) :
    alookup (a.mergeExit b).1.forcedBy v = some r ∨
      alookup (a.mergeExit b).1.forcedBy v = some ForceRef.ambiguous := by
  rw [ForcedBy.lookup_mergeExit, h]
  cases hb : alookup b.forcedBy v with
  | none => exact Or.inl rfl
  | some g =>
    by_cases hg : g = r
    · exact Or.inl (by simp [hg])
    · exact Or.inr (by simp [hg])

theorem ForcedBy.merge_forced_mono (a b : ForcedBy) (v : Value)
    (r : ForceRef) (h : alookup a.forcedBy v = some r) :
    alookup (a.merge b).1.forcedBy v = some r ∨
      alookup (a.merge b).1.forcedBy v = some ForceRef.ambiguous := by
  rw [ForcedBy.lookup_merge, h]
  cases hb : alookup b.forcedBy v with
  | none =>
    by_cases hs : v ∈ b.inScope
    · exact Or.inr (by simp [hs])
    · exact Or.inl (by simp [hs])
  | some g =>
    by_cases hg : g = r
    · exact Or.inl (by simp [hg])
    · exact Or.inr (by simp [hg])

theorem ForcedBy.mergeExit_amb_persist (a b : ForcedBy) (v : Value)
    (h : alookup a.forcedBy v = some ForceRef.ambiguous) :
    alookup (a.mergeExit b).1.forcedBy v = some ForceRef.ambiguous := by
  rw [ForcedBy.lookup_mergeExit, h]
  cases hb : alookup b.forcedBy v with
  | none => rfl
  | some g => simp [ite_self]

theorem ForcedBy.merge_amb_persist (a b : ForcedBy) (v : Value)
    (h : alookup a.forcedBy v = some ForceRef.ambiguous) :
    alookup (a.merge b).1.forcedBy v = some ForceRef.ambiguous := by
  rw [ForcedBy.lookup_merge, h]
  cases hb : alookup b.forcedBy v with
  | none => simp [ite_self]
  | some g => simp [ite_self]

theorem ForcedBy.mergeExit_inScope_mono (a b : ForcedBy) (v : Value)
    (h : v ∈ a.inScope) : v ∈ (a.mergeExit b).1.inScope :=
  List.mem_append_left _ h

theorem ForcedBy.merge_inScope_mono (a b : ForcedBy) (v : Value)
    (h : v ∈ a.inScope) : v ∈ (a.merge b).1.inScope :=
  List.mem_append_left _ h

theorem ForcedBy.mergeExit_escaped_mono (a b : ForcedBy) (v : Value)
    (h : v ∈ a.escaped) : v ∈ (a.mergeExit b).1.escaped :=
  List.mem_append_left _ h

theorem ForcedBy.merge_escaped_mono (a b : ForcedBy) (v : Value)
    (h : v ∈ a.escaped) : v ∈ (a.merge b).1.escaped :=
  List.mem_append_left _ h

theorem ForcedBy.mergeExit_order_take (a b : ForcedBy) :
    ∃ k, (a.mergeExit b).1.argumentForceOrder =
      a.argumentForceOrder.take k := by
  have heq : (a.mergeExit b).1.argumentForceOrder =
      (mergeOrder a.argumentForceOrder b.argumentForceOrder
        (if !a.ambiguousForceOrder && b.ambiguousForceOrder then
          ((true : Bool), (true : Bool))
         else (a.ambiguousForceOrder, false)).1).1 := rfl
  rw [heq]
  exact mergeOrder_take _ _ _

theorem ForcedBy.merge_order_take (a b : ForcedBy) :
    ∃ k, (a.merge b).1.argumentForceOrder = a.argumentForceOrder.take k := by
  have heq : (a.merge b).1.argumentForceOrder =
      (mergeOrder a.argumentForceOrder b.argumentForceOrder
        (if !a.ambiguousForceOrder && b.ambiguousForceOrder then
          ((true : Bool), (true : Bool))
         else (a.ambiguousForceOrder, false)).1).1 := rfl
  rw [heq]
  exact mergeOrder_take _ _ _

theorem ForcedBy.mergeExit_amb_mono (a b : ForcedBy)
    (h : a.ambiguousForceOrder = true) :
    (a.mergeExit b).1.ambiguousForceOrder = true := by
  have heq : (a.mergeExit b).1.ambiguousForceOrder =
      (mergeOrder a.argumentForceOrder b.argumentForceOrder
        (if !a.ambiguousForceOrder && b.ambiguousForceOrder then
          ((true : Bool), (true : Bool))
         else (a.ambiguousForceOrder, false)).1).2.1 := rfl
  rw [heq, h]
  simp only [Bool.not_true, Bool.false_and, Bool.false_eq_true, if_false]
  exact mergeOrder_amb _ _

theorem ForcedBy.merge_amb_mono (a b : ForcedBy)
    (h : a.ambiguousForceOrder = true) :
    (a.merge b).1.ambiguousForceOrder = true := by
  have heq : (a.merge b).1.ambiguousForceOrder =
      (mergeOrder a.argumentForceOrder b.argumentForceOrder
        (if !a.ambiguousForceOrder && b.ambiguousForceOrder then
          ((true : Bool), (true : Bool))
         else (a.ambiguousForceOrder, false)).1).2.1 := rfl
  rw [heq, h]
  simp only [Bool.not_true, Bool.false_and, Bool.false_eq_true, if_false]
  exact mergeOrder_amb _ _

/-! Per-operation facts about the state operations used by the transfer
function. -/

theorem ForcedBy.declare_forcedBy (s : ForcedBy) (arg : Value) :
    (s.declare arg).1.forcedBy =
      if (alookup s.forcedBy arg).isSome then aeraseKey s.forcedBy arg
      else s.forcedBy := by
  unfold ForcedBy.declare
  by_cases h2 : (alookup s.forcedBy arg).isSome <;> simp [h2]

theorem ForcedBy.lookup_declare (s : ForcedBy) (arg v : Value) :
    alookup (s.declare arg).1.forcedBy v =
      if v = arg then none else alookup s.forcedBy v := by
  rw [ForcedBy.declare_forcedBy]
  by_cases h2 : (alookup s.forcedBy arg).isSome
  · simp only [h2, if_true]
    exact alookup_aerase s.forcedBy arg v
  · simp only [h2, if_false, Bool.false_eq_true]
    by_cases hv : v = arg
    · subst hv
      cases hx : alookup s.forcedBy v with
      | none => simp
      | some r => rw [hx] at h2; simp at h2
    · simp [hv]

theorem ForcedBy.declare_rest (s : ForcedBy) (arg : Value) :
    (s.declare arg).1.argumentForceOrder = s.argumentForceOrder ∧
    (s.declare arg).1.ambiguousForceOrder = s.ambiguousForceOrder ∧
    (s.declare arg).1.hasDeopt = s.hasDeopt :=
  ⟨rfl, rfl, rfl⟩

theorem ForcedBy.lookup_sideeffect (s : ForcedBy) (v : Value) :
    alookup s.sideeffect.1.forcedBy v =
      match alookup s.forcedBy v with
      | some r => some r
      | none => if v ∈ s.escaped then some ForceRef.ambiguous else none := by
  have heq : s.sideeffect.1.forcedBy =
      s.forcedBy ++
        ((s.escaped.filter fun e => (alookup s.forcedBy e).isNone).map
          fun e => (e, ForceRef.ambiguous)) := rfl
  rw [heq, alookup_append, alookup_map_pair]
  cases hx : alookup s.forcedBy v with
  | some r => rfl
  | none =>
    by_cases hm : v ∈ s.escaped
    · simp [List.mem_filter, hm, hx]
    · simp [List.mem_filter, hm]

theorem ForcedBy.sideeffect_rest (s : ForcedBy) :
    s.sideeffect.1.inScope = s.inScope ∧
    s.sideeffect.1.escaped = s.escaped ∧
    s.sideeffect.1.argumentForceOrder = s.argumentForceOrder ∧
    s.sideeffect.1.ambiguousForceOrder = s.ambiguousForceOrder :=
  ⟨rfl, rfl, rfl, rfl⟩

theorem ForcedBy.lookup_forcedAt (s : ForcedBy) (w : Value) (fid : Nat)
    (v : Value) :
    alookup (s.forcedAt w fid).1.forcedBy v =
      match alookup s.forcedBy v with
      | some r => some r
      | none => if v = w then some (ForceRef.f fid) else none := by
  unfold ForcedBy.forcedAt
  by_cases hw : (alookup s.forcedBy w).isNone
  · simp only [hw, if_true]
    rw [alookup_append]
    cases hx : alookup s.forcedBy v with
    | some r => rfl
    | none =>
      by_cases hv : v = w
      · subst hv; simp [alookup]
      · simp only [alookup, hx]
        rw [if_neg (fun h => hv h.symm), if_neg hv]
  · simp only [hw, if_false, Bool.false_eq_true]
    cases hx : alookup s.forcedBy v with
    | some r => rfl
    | none =>
      by_cases hv : v = w
      · subst hv; rw [hx] at hw; simp at hw
      · simp [hv]

theorem ForcedBy.forcedAt_rest (s : ForcedBy) (w : Value) (fid : Nat) :
    (s.forcedAt w fid).1.inScope = s.inScope ∧
    (s.forcedAt w fid).1.escaped = s.escaped ∧
    (s.forcedAt w fid).1.argumentForceOrder = s.argumentForceOrder ∧
    (s.forcedAt w fid).1.ambiguousForceOrder = s.ambiguousForceOrder := by
  unfold ForcedBy.forcedAt
  by_cases hw : (alookup s.forcedBy w).isNone <;> simp [hw]

theorem ForcedBy.escape_fields (s : ForcedBy) (v : Value) :
    (s.escape v).1.forcedBy = s.forcedBy ∧
    (s.escape v).1.inScope = s.inScope ∧
    (s.escape v).1.argumentForceOrder = s.argumentForceOrder ∧
    (s.escape v).1.ambiguousForceOrder = s.ambiguousForceOrder := by
  unfold ForcedBy.escape
  by_cases h : (alookup s.forcedBy v = none ∧ v ∉ s.escaped) <;> simp [h]

theorem escapeArgs_fields (args : List Value) : ∀ s : ForcedBy,
    (escapeArgs s args).1.forcedBy = s.forcedBy ∧
    (escapeArgs s args).1.inScope = s.inScope ∧
    (escapeArgs s args).1.argumentForceOrder = s.argumentForceOrder ∧
    (escapeArgs s args).1.ambiguousForceOrder = s.ambiguousForceOrder := by
  induction args with
  | nil => intro s; exact ⟨rfl, rfl, rfl, rfl⟩
  | cons w rest ih =>
    intro s
    unfold escapeArgs
    by_cases hc : escapeCond w.followCasts = true
    · simp only [hc, if_true]
      rcases ih (s.escape w.followCasts).1 with ⟨h1, h2, h3, h4⟩
      rcases ForcedBy.escape_fields s w.followCasts with ⟨g1, g2, g3, g4⟩
      exact ⟨h1.trans g1, h2.trans g2, h3.trans g3, h4.trans g4⟩
    · simp only [hc, Bool.false_eq_true, if_false]
      exact ih s

/-! Shape of the forced-by map across one transfer step. -/

theorem stepF_force_forcedBy (nargs : Nat) (s : ForcedBy) (fid : Nat)
    (arg : Value) :
    (stepF nargs s (.force fid arg)).forcedBy =
      if forceKeyCond arg.followCasts then
        (s.forcedAt arg.followCasts fid).1.forcedBy
      else s.forcedBy := by
  simp only [stepF, applyInstr]
  cases hfc : arg.followCasts with
  | ldArg id ty =>
    by_cases hl : ty.maybeLazy = true
    · simp only [hl, if_true]
      by_cases hcond :
        (!(s.forcedAt (Value.ldArg id ty) fid).1.ambiguousForceOrder &&
          !(s.forcedAt (Value.ldArg id ty) fid).1.maybeForced id) = true <;>
        simp [hcond, forceKeyCond, hl]
    · simp [hl, forceKeyCond]
  | mkArg id prom eager => simp [forceKeyCond]
  | forceV i2 a2 ty =>
    by_cases hl : ty.maybeLazy = true <;> simp [hl, forceKeyCond]
  | instrV i2 ty =>
    by_cases hl : ty.maybeLazy = true <;> simp [hl, forceKeyCond]
  | castV a2 => simp [forceKeyCond]
  | constV i2 => simp [forceKeyCond]

theorem stepF_mkArg (nargs : Nat) (s : ForcedBy) (id prom : Nat)
    (eager : Bool) :
    stepF nargs s (.mkArgI id prom eager) =
      (s.declare (Value.mkArg id prom eager)).1 := rfl

theorem stepF_mkEnv_forcedBy (nargs : Nat) (s : ForcedBy) (stub : Bool)
    (args : List Value) :
    (stepF nargs s (.mkEnv stub args)).forcedBy = s.forcedBy := by
  simp only [stepF, applyInstr]
  by_cases hstub : (!stub) = true
  · simp only [hstub, if_true]
    exact (escapeArgs_fields args s).1
  · simp [hstub]

theorem stepF_castTypeI (nargs : Nat) (s : ForcedBy) (cid : Nat)
    (arg : Value) : stepF nargs s (.castTypeI cid arg) = s := rfl

theorem stepF_deopt (nargs : Nat) (s : ForcedBy) : stepF nargs s .deopt = s :=
  rfl

theorem stepF_other_lookup (nargs : Nat) (s : ForcedBy) (oid : Nat)
    (ty : PirType) (cF iF : Bool) (args : List Value) (v : Value) :
    alookup (stepF nargs s (.other oid ty cF iF args)).forcedBy v =
      (match alookup (if ty.maybeLazy then (s.declare (Value.instrV oid ty)).1
                      else s).forcedBy v with
       | some r => some r
       | none =>
         if cF = true ∧
             v ∈ (escapeArgs
               (if ty.maybeLazy then (s.declare (Value.instrV oid ty)).1 else s)
               args).1.escaped then
           some ForceRef.ambiguous
         else none) := by
  simp only [stepF, applyInstr]
  by_cases hl : ty.maybeLazy = true <;>
    simp only [hl, if_true, Bool.false_eq_true, if_false] <;>
    · by_cases hcf : cF = true
      · simp only [hcf, if_true, true_and]
        split <;>
        · rw [ForcedBy.lookup_sideeffect]
          rw [(escapeArgs_fields args _).1]
      · simp only [hcf, Bool.false_eq_true, if_false, false_and]
        split <;>
        · rw [(escapeArgs_fields args _).1]
          cases hx : alookup _ v <;> simp [hx]

theorem stepF_persist (nargs : Nat) (s : ForcedBy) (i : Instr) (v : Value)
    (r : ForceRef) (h : alookup s.forcedBy v = some r)
    (hd : declaresOf i ≠ some v) :
    alookup (stepF nargs s i).forcedBy v = some r := by
  cases i with
  | force fid arg =>
    rw [stepF_force_forcedBy]
    by_cases hc : forceKeyCond arg.followCasts = true
    · rw [if_pos hc, ForcedBy.lookup_forcedAt, h]
    · rw [if_neg hc]; exact h
  | mkArgI id prom eager =>
    rw [stepF_mkArg, ForcedBy.lookup_declare]
    have hne : v ≠ Value.mkArg id prom eager := by
      intro he; exact hd (by simp [declaresOf, he])
    simp [hne, h]
  | mkEnv stub args => rw [stepF_mkEnv_forcedBy]; exact h
  | castTypeI cid arg => rw [stepF_castTypeI]; exact h
  | deopt => rw [stepF_deopt]; exact h
  | other oid ty cF iF args =>
    rw [stepF_other_lookup]
    by_cases hl : ty.maybeLazy = true
    · have hne : v ≠ Value.instrV oid ty := by
        intro he; exact hd (by simp [declaresOf, hl, he])
      simp only [hl, if_true]
      rw [ForcedBy.lookup_declare]
      simp [hne, h]
    · simp only [hl, Bool.false_eq_true, if_false, h]

theorem stepF_kill (nargs : Nat) (s : ForcedBy) (i : Instr) (v : Value)
    (hd : declaresOf i = some v) :
    alookup (stepF nargs s i).forcedBy v = none ∨
      alookup (stepF nargs s i).forcedBy v = some ForceRef.ambiguous := by
  cases i with
  | mkArgI id prom eager =>
    left
    rw [stepF_mkArg, ForcedBy.lookup_declare]
    have hv : v = Value.mkArg id prom eager := by
      simp [declaresOf] at hd; exact hd.symm
    simp [hv]
  | other oid ty cF iF args =>
    have hl : ty.maybeLazy = true := by
      by_contra hn
      simp [declaresOf, hn] at hd
    have hv : v = Value.instrV oid ty := by
      simp [declaresOf, hl] at hd; exact hd.symm
    rw [stepF_other_lookup]
    simp only [hl, if_true]
    rw [ForcedBy.lookup_declare]
    rw [if_pos hv]
    by_cases hmem : (cF = true ∧ v ∈ (escapeArgs
        ((s.declare (Value.instrV oid ty)).1) args).1.escaped)
    · right; simp [hmem]
    · left; simp [hmem]
  | force fid arg => simp [declaresOf] at hd
  | mkEnv stub args => simp [declaresOf] at hd
  | castTypeI cid arg => simp [declaresOf] at hd
  | deopt => simp [declaresOf] at hd

theorem stepF_intro (nargs : Nat) (s : ForcedBy) (i : Instr) (v : Value)
    (fid : Nat) (h0 : alookup s.forcedBy v = none)
    (h1 : alookup (stepF nargs s i).forcedBy v = some (ForceRef.f fid)) :
    ∃ b, i = Instr.force fid b ∧ b.followCasts = v ∧
      forceKeyCond v = true := by
  cases i with
  | force g arg =>
    rw [stepF_force_forcedBy] at h1
    by_cases hc : forceKeyCond arg.followCasts = true
    · rw [if_pos hc, ForcedBy.lookup_forcedAt, h0] at h1
      by_cases hv : v = arg.followCasts
      · rw [if_pos hv] at h1
        have hg : g = fid := by
          have := Option.some.inj h1
          exact ForceRef.f.inj this
        exact ⟨arg, by rw [hg], hv.symm, hv ▸ hc⟩
      · rw [if_neg hv] at h1; exact absurd h1 (by simp)
    · rw [if_neg hc, h0] at h1; exact absurd h1 (by simp)
  | mkArgI id prom eager =>
    rw [stepF_mkArg, ForcedBy.lookup_declare] at h1
    by_cases hv : v = Value.mkArg id prom eager
    · rw [if_pos hv] at h1; exact absurd h1 (by simp)
    · rw [if_neg hv, h0] at h1; exact absurd h1 (by simp)
  | mkEnv stub args =>
    rw [stepF_mkEnv_forcedBy, h0] at h1; exact absurd h1 (by simp)
  | castTypeI cid arg =>
    rw [stepF_castTypeI, h0] at h1; exact absurd h1 (by simp)
  | deopt => rw [stepF_deopt, h0] at h1; exact absurd h1 (by simp)
  | other oid ty cF iF args =>
    rw [stepF_other_lookup] at h1
    by_cases hl : ty.maybeLazy = true
    · simp only [hl, if_true] at h1
      rw [ForcedBy.lookup_declare] at h1
      by_cases hv : v = Value.instrV oid ty
      · rw [if_pos hv] at h1
        by_cases hmem : (cF = true ∧ v ∈ (escapeArgs
            ((s.declare (Value.instrV oid ty)).1) args).1.escaped) <;>
          simp [hmem] at h1
      · rw [if_neg hv, h0] at h1
        by_cases hmem : (cF = true ∧ v ∈ (escapeArgs
            ((s.declare (Value.instrV oid ty)).1) args).1.escaped) <;>
          simp [hmem] at h1
    · simp only [hl, Bool.false_eq_true, if_false, h0] at h1
      by_cases hmem : (cF = true ∧ v ∈ (escapeArgs s args).1.escaped) <;>
        simp [hmem] at h1

theorem stepF_force_present (nargs : Nat) (s : ForcedBy) (fid : Nat)
    (arg : Value) (hc : forceKeyCond arg.followCasts = true) :
    (alookup (stepF nargs s (.force fid arg)).forcedBy
      arg.followCasts).isSome := by
  rw [stepF_force_forcedBy, if_pos hc, ForcedBy.lookup_forcedAt]
  cases hx : alookup s.forcedBy arg.followCasts <;> simp [hx]

theorem foldl_present (nargs : Nat) (v : Value) :
    ∀ (t : List Instr) (s : ForcedBy),
      (∀ j ∈ t, declaresOf j ≠ some v) →
      (alookup s.forcedBy v).isSome →
      (alookup (t.foldl (stepF nargs) s).forcedBy v).isSome := by
  intro t
  induction t with
  | nil => intro s _ hs; exact hs
  | cons j rest ih =>
    intro s hnd hs
    rw [List.foldl_cons]
    apply ih
    · intro j2 hj2; exact hnd j2 (List.mem_cons_of_mem j hj2)
    · cases hx : alookup s.forcedBy v with
      | none => rw [hx] at hs; simp at hs
      | some r =>
        rw [stepF_persist nargs s j v r hx (hnd j (List.mem_cons_self j rest))]
        rfl

/-! Path-level soundness of the forced-by map. -/

theorem runPath_first_force (nargs : Nat) (v : Value) (fid : Nat) :
    ∀ p : List Instr,
      alookup (runPath nargs p).forcedBy v = some (ForceRef.f fid) →
      FirstForceOk v fid p := by
  intro p
  induction p using List.reverseRecOn with
  | nil => intro h; simp [runPath, ForcedBy.empty, alookup] at h
  | append_singleton q i ih =>
    intro h
    have hq : runPath nargs (q ++ [i]) = stepF nargs (runPath nargs q) i := by
      simp [runPath, List.foldl_append]
    rw [hq] at h
    cases hx : alookup (runPath nargs q).forcedBy v with
    | some r =>
      by_cases hd : declaresOf i = some v
      · rcases stepF_kill nargs (runPath nargs q) i v hd with hk | hk <;>
          rw [h] at hk <;> simp at hk
      · have hpers := stepF_persist nargs (runPath nargs q) i v r hx hd
        rw [h] at hpers
        have hr : r = ForceRef.f fid := (Option.some.inj hpers).symm
        subst hr
        rcases ih hx with ⟨q1, b, q2, hsplit, hb, hc, hnd, hq1⟩
        refine ⟨q1, b, q2 ++ [i], by rw [hsplit]; simp, hb, hc, ?_, hq1⟩
        intro j hj
        rcases List.mem_append.1 hj with hj1 | hj1
        · exact hnd j hj1
        · rw [List.mem_singleton.1 hj1]; exact hd
    | none =>
      rcases stepF_intro nargs (runPath nargs q) i v fid hx h with
        ⟨b, hib, hbv, hcv⟩
      refine ⟨q, b, [], by rw [hib], hbv, hcv, ?_, ?_⟩
      · intro j hj; simp at hj
      · intro t1 j t2 hqsplit hforces hnd2
        rcases hforces with ⟨g, b2, hjform, hb2⟩
        have hpresent : (alookup (runPath nargs q).forcedBy v).isSome := by
          have hq2 : runPath nargs q =
              t2.foldl (stepF nargs) (stepF nargs (runPath nargs t1) j) := by
            rw [hqsplit]
            simp [runPath, List.foldl_append]
          rw [hq2]
          apply foldl_present
          · exact fun j2 hj2 => hnd2 j2 hj2
          · rw [hjform]
            have hcb2 : forceKeyCond b2.followCasts = true := by rw [hb2]; exact hcv
            have := stepF_force_present nargs (runPath nargs t1) g b2 hcb2
            rw [hb2] at this
            exact this
        rw [hx] at hpresent
        simp at hpresent

/-! Facts about merging the per-path states at a join. -/

theorem mergeState_none (a b : ForcedBy) (v : Value) :
    alookup (mergeState a b).forcedBy v = none →
      alookup a.forcedBy v = none ∧ alookup b.forcedBy v = none := by
  unfold mergeState
  rw [ForcedBy.lookup_merge]
  cases hA : alookup a.forcedBy v with
  | none =>
    cases hB : alookup b.forcedBy v with
    | none => intro h; exact ⟨rfl, rfl⟩
    | some g =>
      intro h
      by_cases hs : v ∈ a.inScope <;> simp [hs] at h
  | some f =>
    cases hB : alookup b.forcedBy v with
    | none =>
      intro h
      by_cases hs : v ∈ b.inScope <;> simp [hs] at h
    | some g => intro h; simp at h

theorem mergeState_specific (a b : ForcedBy) (v : Value) (fid : Nat) :
    alookup (mergeState a b).forcedBy v = some (ForceRef.f fid) →
      (alookup a.forcedBy v = some (ForceRef.f fid) ∨
        alookup a.forcedBy v = none) ∧
      (alookup b.forcedBy v = some (ForceRef.f fid) ∨
        alookup b.forcedBy v = none) := by
  unfold mergeState
  rw [ForcedBy.lookup_merge]
  cases hA : alookup a.forcedBy v with
  | none =>
    cases hB : alookup b.forcedBy v with
    | none => intro h; exact ⟨Or.inr rfl, Or.inr rfl⟩
    | some g =>
      intro h
      by_cases hs : v ∈ a.inScope
      · simp [hs] at h
      · simp [hs] at h
        exact ⟨Or.inr rfl, Or.inl (by rw [h])⟩
  | some f =>
    cases hB : alookup b.forcedBy v with
    | none =>
      intro h
      by_cases hs : v ∈ b.inScope
      · simp [hs] at h
      · simp [hs] at h
        exact ⟨Or.inl (by rw [h]), Or.inr rfl⟩
    | some g =>
      intro h
      by_cases hg : g = f
      · simp [hg] at h
        exact ⟨Or.inl (by rw [h]), Or.inl (by rw [hg, h])⟩
      · simp [hg] at h

theorem foldl_merge_specific (v : Value) (fid : Nat) :
    ∀ (ss : List ForcedBy) (s : ForcedBy),
      alookup (ss.foldl mergeState s).forcedBy v = some (ForceRef.f fid) →
      ∀ t ∈ s :: ss, alookup t.forcedBy v = some (ForceRef.f fid) ∨
        alookup t.forcedBy v = none := by
  intro ss
  induction ss with
  | nil =>
    intro s h t ht
    rw [List.mem_singleton.1 ht]
    exact Or.inl h
  | cons b rest ih =>
    intro s h t ht
    rw [List.foldl_cons] at h
    have hsb := ih (mergeState s b) h (mergeState s b)
      (List.mem_cons_self _ _)
    rcases List.mem_cons.1 ht with h1 | h1
    · subst h1
      rcases hsb with hs2 | hs2
      · exact (mergeState_specific t b v fid hs2).1
      · exact Or.inr (mergeState_none t b v hs2).1
    · rcases List.mem_cons.1 h1 with h2 | h2
      · subst h2
        rcases hsb with hs2 | hs2
        · exact (mergeState_specific s t v fid hs2).2
        · exact Or.inr (mergeState_none s t v hs2).2
      · exact ih (mergeState s b) h t (List.mem_cons_of_mem _ h2)

theorem foldl_merge_all_none (v : Value) :
    ∀ (ss : List ForcedBy) (s : ForcedBy),
      alookup s.forcedBy v = none →
      (∀ t ∈ ss, alookup t.forcedBy v = none) →
      alookup (ss.foldl mergeState s).forcedBy v = none := by
  intro ss
  induction ss with
  | nil => intro s hs _; exact hs
  | cons b rest ih =>
    intro s hs hall
    rw [List.foldl_cons]
    apply ih
    · unfold mergeState
      rw [ForcedBy.lookup_merge, hs, hall b (List.mem_cons_self _ _)]
    · exact fun t ht => hall t (List.mem_cons_of_mem _ ht)

/-- Soundness of a dominating-force verdict over a family of entry-to-force
paths: if the merged state maps the cast-stripped operand of Force `fid` to
that very force, then on every one of the paths the occurrence of `fid` is
the first force of the operand since its most recent declaration. -/
theorem merged_first_force (nargs fid : Nat) (a0 : Value)
    (paths : List (List Instr)) (S : ForcedBy)
    (hend : ∀ p ∈ paths, ∃ q, p = q ++ [Instr.force fid a0])
    (hm : mergedStates nargs paths = some S)
    (hdom : alookup S.forcedBy a0.followCasts = some (ForceRef.f fid)) :
    ∀ p ∈ paths, FirstForceOk a0.followCasts fid p := by
  cases paths with
  | nil => simp [mergedStates] at hm
  | cons p0 rest =>
    have hm2 : S =
        (rest.map (runPath nargs)).foldl mergeState (runPath nargs p0) := by
      simp only [mergedStates, List.map_cons] at hm
      exact (Option.some.inj hm).symm
    have hfold : alookup ((rest.map (runPath nargs)).foldl mergeState
        (runPath nargs p0)).forcedBy a0.followCasts =
        some (ForceRef.f fid) := by
      rw [← hm2]; exact hdom
    have hall := foldl_merge_specific a0.followCasts fid
      (rest.map (runPath nargs)) (runPath nargs p0) hfold
    have hex : ∃ t ∈ (runPath nargs p0) :: rest.map (runPath nargs),
        alookup t.forcedBy a0.followCasts = some (ForceRef.f fid) := by
      by_contra hno
      push_neg at hno
      have hnone : ∀ t ∈ (runPath nargs p0) :: rest.map (runPath nargs),
          alookup t.forcedBy a0.followCasts = none := fun t ht =>
        (hall t ht).resolve_left (hno t ht)
      have hz := foldl_merge_all_none a0.followCasts
        (rest.map (runPath nargs)) (runPath nargs p0)
        (hnone _ (List.mem_cons_self _ _))
        (fun t ht => hnone t (List.mem_cons_of_mem _ ht))
      rw [hfold] at hz
      simp at hz
    rcases hex with ⟨t, ht, hts⟩
    have hpt : ∃ p1 ∈ p0 :: rest, runPath nargs p1 = t := by
      rcases List.mem_cons.1 ht with h1 | h1
      · exact ⟨p0, List.mem_cons_self _ _, h1.symm⟩
      · rcases List.mem_map.1 h1 with ⟨p1, hp1, hp1e⟩
        exact ⟨p1, List.mem_cons_of_mem _ hp1, hp1e⟩
    rcases hpt with ⟨p1, hp1, hp1e⟩
    have hff1 := runPath_first_force nargs a0.followCasts fid p1
      (by rw [hp1e]; exact hts)
    have helig : forceKeyCond a0.followCasts = true := by
      rcases hff1 with ⟨_, _, _, _, _, hc, _, _⟩
      exact hc
    intro p hp
    have hmem : runPath nargs p ∈
        (runPath nargs p0) :: rest.map (runPath nargs) := by
      rcases List.mem_cons.1 hp with h1 | h1
      · rw [h1]; exact List.mem_cons_self _ _
      · exact List.mem_cons_of_mem _ (List.mem_map_of_mem _ h1)
    rcases hall (runPath nargs p) hmem with hsf | hsn
    · exact runPath_first_force nargs a0.followCasts fid p hsf
    · rcases hend p hp with ⟨q, hpq⟩
      have hpres : (alookup (runPath nargs p).forcedBy
          a0.followCasts).isSome := by
        rw [hpq]
        have hstep : runPath nargs (q ++ [Instr.force fid a0]) =
            stepF nargs (runPath nargs q) (Instr.force fid a0) := by
          simp [runPath, List.foldl_append]
        rw [hstep]
        exact stepF_force_present nargs (runPath nargs q) fid a0 helig
      rw [hsn] at hpres
      simp at hpres

/-! Claim theorems. -/

/-- C1 (counterexample): the claim that a converged `isDominatingForce(f)`
verdict constrains every execution path through the CFG fails on a diamond
program whose two branches each force the same MkArg with a different
Force: the analysis state reaching Force 1 reports it dominating, yet the
other path forces the value through Force 2 without ever passing through
Force 1. -/
theorem ForceDominance.C1_counterexample :
    ¬ dominanceClaim 0 1 (Value.mkArg 7 0 false)
      [[Instr.mkArgI 7 0 false, Instr.force 1 (Value.mkArg 7 0 false)],
       [Instr.mkArgI 7 0 false, Instr.force 2 (Value.mkArg 7 0 false)]] := by
  intro h
  have h2 := h ⟨[(Value.mkArg 7 0 false, ForceRef.f 1)],
      [Value.mkArg 7 0 false], [], [], false, []⟩ (by decide) (by decide)
    [Instr.mkArgI 7 0 false, Instr.force 2 (Value.mkArg 7 0 false)]
    (by decide)
    [Instr.mkArgI 7 0 false] (Instr.force 2 (Value.mkArg 7 0 false)) []
    rfl ⟨2, Value.mkArg 7 0 false, rfl, rfl⟩ (by decide)
  rcases h2 with ⟨u1, u2, hu⟩
  have hmem : Instr.force 1 (Value.mkArg 7 0 false) ∈
      [Instr.mkArgI 7 0 false] := by
    rw [hu]
    exact List.mem_append_right _ (List.mem_cons_self _ _)
  simp at hmem

/-- C1 (amended): soundness of force dominance on the paths that reach the
force.  Over any family of entry-to-`f` paths whose merged analysis state
reports `isDominatingForce(f)`, on every path of the family the occurrence
of `f` is the first Force of its cast-stripped operand since the operand's
most recent declaration: any other Force of that operand on the path is
either followed by a redeclaration before `f` or executes after `f`.
Paths that do not pass through `f` are not constrained. -/
theorem ForceDominance.C1_amended_soundness (nargs fid : Nat) (a0 : Value)
    (paths : List (List Instr)) (S : ForcedBy)
    (hend : ∀ p ∈ paths, ∃ q, p = q ++ [Instr.force fid a0])
    (hm : mergedStates nargs paths = some S)
    (hdom : S.isDominatingForce fid a0 = true) :
    ∀ p ∈ paths, FirstForceOk a0.followCasts fid p := by
  apply merged_first_force nargs fid a0 paths S hend hm
  unfold ForcedBy.isDominatingForce ForcedBy.getDominatingForce at hdom
  cases hx : alookup S.forcedBy a0.followCasts with
  | none => rw [hx] at hdom; simp at hdom
  | some r =>
    cases r with
    | ambiguous => rw [hx] at hdom; simp at hdom
    | f i =>
      rw [hx] at hdom
      simp at hdom
      rw [hdom]

/-- C1 (witness): the amended soundness theorem applied to the one-path
program that declares a MkArg and forces it once. -/
theorem ForceDominance.C1_amended_witness :
    FirstForceOk (Value.mkArg 7 0 false) 1
      [Instr.mkArgI 7 0 false, Instr.force 1 (Value.mkArg 7 0 false)] := by
  have hres := ForceDominance.C1_amended_soundness 0 1 (Value.mkArg 7 0 false)
    [[Instr.mkArgI 7 0 false, Instr.force 1 (Value.mkArg 7 0 false)]]
    ⟨[(Value.mkArg 7 0 false, ForceRef.f 1)], [Value.mkArg 7 0 false],
      [], [], false, []⟩
    (by
      intro p hp
      simp only [List.mem_singleton] at hp
      exact ⟨[Instr.mkArgI 7 0 false], by rw [hp]; rfl⟩)
    (by decide) (by decide)
  exact hres _ (List.mem_cons_self _ _)

/-- C2 (counterexample): `eagerLikeFunction` is not equivalent to the
recorded order being exactly `[0, ..., N-1]`: with one effective parameter
and recorded order `[0, 1]`, it returns true although the order has an
extra entry. -/
theorem ForceDominance.C2_counterexample :
    ¬(ForcedBy.eagerLikeFunction ⟨[], [], [], [0, 1], false, []⟩ 1 = true ↔
      ((⟨[], [], [], [0, 1], false, []⟩ : ForcedBy).argumentForceOrder =
          [0] ∧
        (⟨[], [], [], [0, 1], false, []⟩ : ForcedBy).ambiguousForceOrder =
          false)) := by
  decide

/-- C2 (amended): `eagerLikeFunction` returns true iff the ambiguous-order
flag is unset, the recorded order covers at least all `n` effective
parameters, and its first `n` entries are exactly `0, 1, ..., n-1`;
entries beyond the first `n` are not examined. -/
theorem ForceDominance.C2_amended (s : ForcedBy) (n : Nat) :
    s.eagerLikeFunction n = true ↔
      (s.ambiguousForceOrder = false ∧ n ≤ s.argumentForceOrder.length ∧
        ∀ i < n, s.argumentForceOrder.getD i 0 = i) := by
  unfold ForcedBy.eagerLikeFunction
  by_cases hamb : s.ambiguousForceOrder = true
  · simp [hamb]
  · have hamb2 : s.ambiguousForceOrder = false := by
      cases hb : s.ambiguousForceOrder
      · rfl
      · exact absurd hb hamb
    by_cases hlen : s.argumentForceOrder.length < n
    · simp [hamb2, hlen, Nat.not_le.2 hlen]
    · simp [hamb2, hlen, Nat.le_of_not_lt hlen, List.all_eq_true,
        List.mem_range]

/-- C3: entrywise behavior of the two merges.  Ordinary `merge` degrades a
forced entry to ambiguous when the other state has the value in scope but
not forced (in either direction); `mergeExit` keeps the entry in that case
and adopts entries absent on one side verbatim, degrading to ambiguous only
when the two states record different forcing instructions. -/
theorem ForceDominance.C3_merge_vs_mergeExit (a b : ForcedBy) (v : Value) :
    (alookup (a.merge b).1.forcedBy v =
      match alookup a.forcedBy v, alookup b.forcedBy v with
      | some f, some g => some (if g = f then f else ForceRef.ambiguous)
      | some f, none => some (if v ∈ b.inScope then ForceRef.ambiguous else f)
      | none, some g => some (if v ∈ a.inScope then ForceRef.ambiguous else g)
      | none, none => none) ∧
    (alookup (a.mergeExit b).1.forcedBy v =
      match alookup a.forcedBy v, alookup b.forcedBy v with
      | some f, some g => some (if g = f then f else ForceRef.ambiguous)
      | some f, none => some f
      | none, some g => some g
      | none, none => none) :=
  ⟨ForcedBy.lookup_merge a b v, ForcedBy.lookup_mergeExit a b v⟩

/-- C4: once a value is ambiguous it stays ambiguous through both merges,
and self-merge is the identity and reports no update (for any state whose
forced-by map is well formed, as all states built by the analysis are). -/
theorem ForceDominance.C4_monotone_idempotent :
    (∀ (a b : ForcedBy) (v : Value),
      alookup a.forcedBy v = some ForceRef.ambiguous →
      alookup (a.merge b).1.forcedBy v = some ForceRef.ambiguous ∧
      alookup (a.mergeExit b).1.forcedBy v = some ForceRef.ambiguous) ∧
    (∀ a : ForcedBy, WFfb a.forcedBy →
      a.merge a = (a, AbstractResult.None)) :=
  ⟨fun a b v h => ⟨ForcedBy.merge_amb_persist a b v h,
    ForcedBy.mergeExit_amb_persist a b v h⟩,
   fun a h => ForcedBy.merge_self a h⟩

/-- C4 (witness): the theorem applied at a concrete ambiguous entry and a
concrete self-merge. -/
theorem ForceDominance.C4_witness :
    (alookup ((⟨[(Value.constV 0, ForceRef.ambiguous)], [], [], [], false,
        []⟩ : ForcedBy).merge ForcedBy.empty).1.forcedBy (Value.constV 0) =
      some ForceRef.ambiguous) ∧
    (⟨[(Value.constV 0, ForceRef.ambiguous)], [], [], [], false, []⟩ :
        ForcedBy).merge
      ⟨[(Value.constV 0, ForceRef.ambiguous)], [], [], [], false, []⟩ =
      (⟨[(Value.constV 0, ForceRef.ambiguous)], [], [], [], false, []⟩,
        AbstractResult.None) :=
  ⟨(ForceDominance.C4_monotone_idempotent.1 _ ForcedBy.empty _ (by decide)).1,
   ForceDominance.C4_monotone_idempotent.2 _ (by unfold WFfb; decide)⟩

/-- C5 (counterexample): the promise-body size cutoff of the inliner is the
fixed literal 10 and does not respond to the externally configurable
setting: under the default limit (3000) and under extreme configured
limits, a promise of size 10 is never eligible once the closure is huge,
while size 9 is. -/
theorem ForceDominance.C5_counterexample :
    promSizeEligible (isHugeF none 3001) 10 = false ∧
    promSizeEligible (isHugeF (some 1000000) 1000001) 10 = false ∧
    promSizeEligible (isHugeF (some 0) 1) 10 = false ∧
    promSizeEligible (isHugeF none 3001) 9 = true ∧
    PROMISE_INLINER_MAX_SIZE none = 3000 := by
  decide

/-- C5 (amended): a promise body passes the inliner size gate iff the
closure version does not exceed the configurable
`PROMISE_INLINER_MAX_SIZE` (default 3000), or the promise body's size is
below the fixed, non-configurable constant 10. -/
theorem ForceDominance.C5_amended (envSetting : Option Nat)
    (codeSize promSize : Nat) :
    promSizeEligible (isHugeF envSetting codeSize) promSize = true ↔
      (codeSize ≤ PROMISE_INLINER_MAX_SIZE envSetting ∨ promSize < 10) := by
  unfold promSizeEligible isHugeF
  by_cases h : codeSize > PROMISE_INLINER_MAX_SIZE envSetting
  · simp [h]
  · simp [h]
    omega

/-- C6: a MkArg whose promise body can trigger a non-local exit is never
inlined: when the deopt oracle reports a possible deopt and the cache does
not wrongly record the opposite, `isSafeToInline` answers
`NotSafeToInline`, and the Phase A classification of any Force resolving to
that MkArg never queues it for inlining. -/
theorem ForceDominance.C6_no_deopt_inline (query : ForcedBy)
    (noDeoptQ : Nat → Bool) (mkid prom : Nat) (eager : Bool)
    (hq : noDeoptQ prom = false)
    (hcache : alookup query.hasDeopt prom ≠ some false) :
    (query.isSafeToInline noDeoptQ mkid prom eager).1 =
        PromiseInlineable.NotSafeToInline ∧
      ∀ (a : ForcedBy) (isHuge : Bool) (promSize : Nat → Nat) (fid : Nat)
        (farg : Value) (fty : PirType),
        (Value.forceV fid farg fty).followCastsAndForce =
          Value.mkArg mkid prom eager →
        (classifyForce a query noDeoptQ isHuge promSize fid farg
            fty).queueInline = false := by
  have hsafe : (query.isSafeToInline noDeoptQ mkid prom eager).1 =
      PromiseInlineable.NotSafeToInline := by
    unfold ForcedBy.isSafeToInline
    cases hc : alookup query.hasDeopt prom with
    | none => simp [hq]
    | some d =>
      cases d with
      | false => exact absurd hc hcache
      | true => simp
  refine ⟨hsafe, ?_⟩
  intro a isHuge promSize fid farg fty hmk
  unfold classifyForce
  by_cases hd : a.isDominatingForce fid farg = true
  · rw [if_pos hd]
    simp only [hmk]
    by_cases he : (!eager) = true
    · rw [if_pos he]
      by_cases hsz : promSizeEligible isHuge (promSize prom) = true
      · rw [if_pos hsz]
        simp [hsafe]
      · rw [if_neg hsz]
    · rw [if_neg he]
  · rw [if_neg hd]
    cases a.getDominatingForce farg <;> rfl

/-- C6 (witness): the theorem applied to an always-deopt oracle on concrete
inputs. -/
theorem ForceDominance.C6_witness :
    ((ForcedBy.empty.isSafeToInline (fun _ => false) 0 0 false).1 =
        PromiseInlineable.NotSafeToInline) ∧
      (classifyForce ForcedBy.empty ForcedBy.empty (fun _ => false) false
          (fun _ => 0) 1 (Value.mkArg 0 0 false) ⟨false⟩).queueInline =
        false := by
  have h := ForceDominance.C6_no_deopt_inline ForcedBy.empty (fun _ => false)
    0 0 false rfl (by decide)
  exact ⟨h.1, h.2 ForcedBy.empty false (fun _ => 0) 1 (Value.mkArg 0 0 false)
    ⟨false⟩ rfl⟩

/-- C7: Phase A removes an UpdatePromise whose target is directly a MkArg
exactly when that MkArg is not in the escaped set of the analysis state
before the instruction; when the MkArg escaped, the instruction is kept
(removal is the only action Phase A takes on UpdatePromise, and the
inlining phase separately inserts a companion when required). -/
theorem ForceDominance.C7_dead_update (before : ForcedBy) (id prom : Nat)
    (eager : Bool) :
    updatePromiseStep before (Value.mkArg id prom eager) = true ↔
      Value.mkArg id prom eager ∉ before.escaped := by
  unfold updatePromiseStep
  by_cases h : Value.mkArg id prom eager ∈ before.escaped <;> simp [h]

/-- C8 (counterexample): the claim that every abstract-state operation only
grows the escaped set and only degrades forced knowledge fails at
`declare`: redeclaring a value erases both its escaped membership and its
recorded (even ambiguous) forced-state. -/
theorem ForceDominance.C8_counterexample : ¬ declareMonotoneClaim := by
  intro h
  rcases h ⟨[(Value.constV 0, ForceRef.ambiguous)], [Value.constV 0],
      [Value.constV 0], [], false, []⟩ (Value.constV 0) with ⟨h1, h2⟩
  exact absurd (h1 (Value.constV 0) (by decide)) (by decide)

/-- C8 (amended): the two merge operations, which drive the fixed-point
iteration at joins, are monotone on the merged-into state: forced-states
only move toward ambiguous and are never dropped, the in-scope and escaped
sets only grow, the argument-force-order only shrinks to a prefix of
itself, and the ambiguous-order flag is sticky.  (The claim fails for
`declare`, which resets knowledge, and for the transfer function, which
appends to the force order.) -/
theorem ForceDominance.C8_amended_monotone (a b : ForcedBy) :
    (∀ v r, alookup a.forcedBy v = some r →
      (alookup (a.merge b).1.forcedBy v = some r ∨
        alookup (a.merge b).1.forcedBy v = some ForceRef.ambiguous) ∧
      (alookup (a.mergeExit b).1.forcedBy v = some r ∨
        alookup (a.mergeExit b).1.forcedBy v = some ForceRef.ambiguous)) ∧
    (∀ v ∈ a.inScope, v ∈ (a.merge b).1.inScope ∧
      v ∈ (a.mergeExit b).1.inScope) ∧
    (∀ v ∈ a.escaped, v ∈ (a.merge b).1.escaped ∧
      v ∈ (a.mergeExit b).1.escaped) ∧
    ((∃ k, (a.merge b).1.argumentForceOrder = a.argumentForceOrder.take k) ∧
      ∃ k, (a.mergeExit b).1.argumentForceOrder =
        a.argumentForceOrder.take k) ∧
    (a.ambiguousForceOrder = true →
      (a.merge b).1.ambiguousForceOrder = true ∧
      (a.mergeExit b).1.ambiguousForceOrder = true) :=
  ⟨fun v r h => ⟨ForcedBy.merge_forced_mono a b v r h,
      ForcedBy.mergeExit_forced_mono a b v r h⟩,
   fun v hv => ⟨ForcedBy.merge_inScope_mono a b v hv,
      ForcedBy.mergeExit_inScope_mono a b v hv⟩,
   fun v hv => ⟨ForcedBy.merge_escaped_mono a b v hv,
      ForcedBy.mergeExit_escaped_mono a b v hv⟩,
   ⟨ForcedBy.merge_order_take a b, ForcedBy.mergeExit_order_take a b⟩,
   fun h => ⟨ForcedBy.merge_amb_mono a b h,
      ForcedBy.mergeExit_amb_mono a b h⟩⟩

/-- C8 (witness): the amended monotonicity applied at a concrete state. -/
theorem ForceDominance.C8_amended_witness :
    ((alookup (sampleA.merge ForcedBy.empty).1.forcedBy (Value.constV 0) =
        some (ForceRef.f 3) ∨
      alookup (sampleA.merge ForcedBy.empty).1.forcedBy (Value.constV 0) =
        some ForceRef.ambiguous) ∧
     (alookup (sampleA.mergeExit ForcedBy.empty).1.forcedBy
        (Value.constV 0) = some (ForceRef.f 3) ∨
      alookup (sampleA.mergeExit ForcedBy.empty).1.forcedBy
        (Value.constV 0) = some ForceRef.ambiguous)) ∧
    (Value.constV 0 ∈ (sampleA.merge ForcedBy.empty).1.inScope ∧
      Value.constV 0 ∈ (sampleA.mergeExit ForcedBy.empty).1.inScope) ∧
    (Value.constV 0 ∈ (sampleA.merge ForcedBy.empty).1.escaped ∧
      Value.constV 0 ∈ (sampleA.mergeExit ForcedBy.empty).1.escaped) ∧
    ((sampleA.merge ForcedBy.empty).1.ambiguousForceOrder = true ∧
      (sampleA.mergeExit ForcedBy.empty).1.ambiguousForceOrder = true) :=
  ⟨(ForceDominance.C8_amended_monotone sampleA ForcedBy.empty).1
      (Value.constV 0) (ForceRef.f 3) (by decide),
   (ForceDominance.C8_amended_monotone sampleA ForcedBy.empty).2.1
      (Value.constV 0) (by decide),
   (ForceDominance.C8_amended_monotone sampleA ForcedBy.empty).2.2.1
      (Value.constV 0) (by decide),
   (ForceDominance.C8_amended_monotone sampleA ForcedBy.empty).2.2.2.2
      (by decide)⟩

/-- C9: forcing a formal-parameter reference whose declared type cannot be
lazy is a complete no-op of the transfer function: the state is returned
unchanged (no forced-by entry, no force-order append) and no update is
reported. -/
theorem ForceDominance.C9_nonlazy_ldarg_noop (nargs : Nat) (s : ForcedBy)
    (fid : Nat) (arg : Value) (id : Nat) (ty : PirType)
    (hfc : arg.followCasts = Value.ldArg id ty)
    (hl : ty.maybeLazy = false) :
    applyInstr nargs s (Instr.force fid arg) = (s, AbstractResult.None) := by
  simp only [applyInstr]
  rw [hfc]
  simp [hl]

/-- C9 (witness): the theorem applied at a concrete non-lazy LdArg. -/
theorem ForceDominance.C9_witness :
    applyInstr 2 ForcedBy.empty (Instr.force 5 (Value.ldArg 0 ⟨false⟩)) =
      (ForcedBy.empty, AbstractResult.None) :=
  ForceDominance.C9_nonlazy_ldarg_noop 2 ForcedBy.empty 5
    (Value.ldArg 0 ⟨false⟩) 0 ⟨false⟩ rfl rfl

/-- C10: the dead-update classification does not look through type casts:
an UpdatePromise whose first operand is a cast (even of a MkArg) is never
removed, regardless of the escaped set. -/
theorem ForceDominance.C10_update_cast_kept (before : ForcedBy) (v : Value) :
    updatePromiseStep before (Value.castV v) = false := rfl
